import Mathlib

/-!
Shallow embedding of the sparse Conway's-Game-of-Life engine from
`Entertainment/ConwaysGameOfLife.ipynb`: the toroidal coordinate mapping
`PBC`, the Moore-neighborhood `contour`, the `boundary` computation, the
neighbor counter `contour_alive_sum` and the `evolution` step, together
with proofs of the specified properties.  The grid dimensions
`GRID_WIDTH` / `GRID_HEIGHT` are taken as explicit parameters `W H : ℕ`.
-/

abbrev Cell : Type := ℤ × ℤ

/-- Toroidal coordinate mapping, from the source function `PBC`: each
axis is reduced modulo the grid dimension only when it is out of range.
Python `%` on a positive modulus is mathematical modulo, as is `Int`'s
`%` (`Int.emod`). -/
def PBC (W H : ℕ) (coord_0 coord_1 : ℤ) : Cell :=
  ((if coord_0 < 0 ∨ coord_0 ≥ (W : ℤ) then coord_0 % (W : ℤ) else coord_0),
   (if coord_1 < 0 ∨ coord_1 ≥ (H : ℤ) then coord_1 % (H : ℤ) else coord_1))

/-- Moore-neighborhood contour of a cell, from the source function
`contour`: the eight offset cells, each normalized through `PBC`,
collected into a set (duplicates collapse, as with Python's `set.add`). -/
def contour (W H : ℕ) (coord : Cell) : Finset Cell :=
  insert (PBC W H (coord.1 - 1) (coord.2 + 1))
    (insert (PBC W H coord.1 (coord.2 + 1))
      (insert (PBC W H (coord.1 + 1) (coord.2 + 1))
        (insert (PBC W H (coord.1 + 1) coord.2)
          (insert (PBC W H (coord.1 + 1) (coord.2 - 1))
            (insert (PBC W H coord.1 (coord.2 - 1))
              (insert (PBC W H (coord.1 - 1) (coord.2 - 1))
                {PBC W H (coord.1 - 1) coord.2}))))))

/-- Boundary computation, from the source function `boundary`: the union
of the contours of all alive cells, minus the alive set itself. -/
def boundary (W H : ℕ) (alive_set : Finset Cell) : Finset Cell :=
  (alive_set.biUnion (fun cell_coord => contour W H cell_coord)) \ alive_set

/-- Alive-neighbor counter, from the source function `contour_alive_sum`:
the number of cells of the contour that belong to the alive set. -/
def contour_alive_sum (W H : ℕ) (coord : Cell) (alive_set : Finset Cell) : ℕ :=
  ((contour W H coord).filter (fun c => c ∈ alive_set)).card

/-- Evolution step, from the source function `evolution`: survivors from
the alive set (neighbor count 2 or 3) together with births from the
boundary set (neighbor count exactly 3). -/
def evolution (W H : ℕ) (alive_set boundary_set : Finset Cell) : Finset Cell :=
  (alive_set.filter (fun cell =>
      2 ≤ contour_alive_sum W H cell alive_set ∧
      contour_alive_sum W H cell alive_set ≤ 3)) ∪
  (boundary_set.filter (fun void => contour_alive_sum W H void alive_set = 3))

/-- The full grid `[0, W) × [0, H)` as a set of cells. -/
def gridCells (W H : ℕ) : Finset Cell :=
  (Finset.range W ×ˢ Finset.range H).image (fun p => ((p.1 : ℤ), (p.2 : ℤ)))

/-- The eight Moore-neighborhood offsets, in the order the source adds
them to the contour set. -/
def mooreOffsets : Finset (ℤ × ℤ) :=
  insert (-1, 1) (insert (0, 1) (insert (1, 1) (insert (1, 0)
    (insert (1, -1) (insert (0, -1) (insert (-1, -1) {(-1, 0)}))))))

/-- Modelled from the spec (the dense reference step of the Game of Life
rule, used as the comparison point for the refinement claim): evaluate
the rule at every cell of the full grid — a cell is in the output iff it
is alive with alive-neighbor count 2 or 3, or dead with alive-neighbor
count exactly 3. -/
def denseStep (W H : ℕ) (A : Finset Cell) : Finset Cell :=
  (gridCells W H).filter (fun c =>
    (c ∈ A ∧ (contour_alive_sum W H c A = 2 ∨ contour_alive_sum W H c A = 3)) ∨
    (c ∉ A ∧ contour_alive_sum W H c A = 3))

/-! ### Basic lemmas about the toroidal mapping -/

theorem PBC_eq_emod (W H : ℕ) (x y : ℤ) :
    PBC W H x y = (x % (W : ℤ), y % (H : ℤ)) := by
  unfold PBC
  simp only [Prod.mk.injEq]
  constructor <;> split_ifs with h
  · rfl
  · push_neg at h
    exact (Int.emod_eq_of_lt h.1 h.2).symm
  · rfl
  · push_neg at h
    exact (Int.emod_eq_of_lt h.1 h.2).symm

theorem mem_gridCells {W H : ℕ} {c : Cell} :
    c ∈ gridCells W H ↔ 0 ≤ c.1 ∧ c.1 < (W : ℤ) ∧ 0 ≤ c.2 ∧ c.2 < (H : ℤ) := by
  unfold gridCells
  simp only [Finset.mem_image, Finset.mem_product, Finset.mem_range]
  constructor
  · rintro ⟨⟨a, b⟩, ⟨ha, hb⟩, rfl⟩
    refine ⟨?_, ?_, ?_, ?_⟩ <;> simp <;> omega
  · rintro ⟨h1, h2, h3, h4⟩
    refine ⟨(c.1.toNat, c.2.toNat), ⟨?_, ?_⟩, ?_⟩
    · omega
    · omega
    · ext <;> simp <;> try omega

theorem PBC_mem_grid {W H : ℕ} (hW : 0 < W) (hH : 0 < H) (x y : ℤ) :
    PBC W H x y ∈ gridCells W H := by
  rw [PBC_eq_emod, mem_gridCells]
  have hW0 : ((W : ℤ)) ≠ 0 := by exact_mod_cast hW.ne'
  have hH0 : ((H : ℤ)) ≠ 0 := by exact_mod_cast hH.ne'
  exact ⟨Int.emod_nonneg x hW0, Int.emod_lt_of_pos x (by exact_mod_cast hW),
    Int.emod_nonneg y hH0, Int.emod_lt_of_pos y (by exact_mod_cast hH)⟩

theorem contour_eq_image (W H : ℕ) (c : Cell) :
    contour W H c =
      mooreOffsets.image (fun o => PBC W H (c.1 + o.1) (c.2 + o.2)) := by
  simp only [contour, mooreOffsets, Finset.image_insert, Finset.image_singleton,
    add_zero, ← sub_eq_add_neg]

theorem mem_contour {W H : ℕ} {c p : Cell} :
    p ∈ contour W H c ↔
      ∃ o ∈ mooreOffsets, PBC W H (c.1 + o.1) (c.2 + o.2) = p := by
  rw [contour_eq_image, Finset.mem_image]

theorem neg_mem_mooreOffsets : ∀ o ∈ mooreOffsets, (-o.1, -o.2) ∈ mooreOffsets := by
  decide

theorem contour_subset_grid {W H : ℕ} (hW : 0 < W) (hH : 0 < H) (c : Cell) :
    contour W H c ⊆ gridCells W H := by
  rw [contour_eq_image]
  intro p hp
  rw [Finset.mem_image] at hp
  obtain ⟨o, _, rfl⟩ := hp
  exact PBC_mem_grid hW hH _ _

theorem card_contour_le (W H : ℕ) (c : Cell) : (contour W H c).card ≤ 8 := by
  calc (contour W H c).card
      = (mooreOffsets.image (fun o => PBC W H (c.1 + o.1) (c.2 + o.2))).card := by
        rw [contour_eq_image]
    _ ≤ mooreOffsets.card := Finset.card_image_le
    _ = 8 := by decide

theorem mem_boundary {W H : ℕ} {A : Finset Cell} {c : Cell} :
    c ∈ boundary W H A ↔ c ∉ A ∧ ∃ a ∈ A, c ∈ contour W H a := by
  unfold boundary
  simp only [Finset.mem_sdiff, Finset.mem_biUnion]
  exact and_comm

theorem boundary_subset_grid {W H : ℕ} (hW : 0 < W) (hH : 0 < H)
    (A : Finset Cell) : boundary W H A ⊆ gridCells W H := by
  intro c hc
  rw [mem_boundary] at hc
  obtain ⟨-, a, -, hca⟩ := hc
  exact contour_subset_grid hW hH a hca

theorem contour_alive_sum_eq_card_inter (W H : ℕ) (c : Cell) (A : Finset Cell) :
    contour_alive_sum W H c A = ((contour W H c) ∩ A).card := by
  unfold contour_alive_sum
  rw [Finset.filter_mem_eq_inter]

theorem contour_alive_sum_le_eight (W H : ℕ) (c : Cell) (A : Finset Cell) :
    contour_alive_sum W H c A ≤ 8 := by
  rw [contour_alive_sum_eq_card_inter]
  exact le_trans (Finset.card_le_card (Finset.inter_subset_left))
    (card_contour_le W H c)

theorem evolution_subset_union (W H : ℕ) (A B : Finset Cell) :
    evolution W H A B ⊆ A ∪ B := by
  intro c hc
  rw [evolution, Finset.mem_union] at hc
  rw [Finset.mem_union]
  rcases hc with h | h
  · exact Or.inl (Finset.mem_of_mem_filter c h)
  · exact Or.inr (Finset.mem_of_mem_filter c h)

/-! ### Modular-arithmetic helper lemmas -/

theorem emod_shift_cancel (W : ℕ) (a b : ℤ) (h0 : 0 ≤ a) (h1 : a < (W : ℤ)) :
    ((a + b) % (W : ℤ) - b) % (W : ℤ) = a := by
  rw [Int.sub_emod, Int.emod_emod_of_dvd _ dvd_rfl, ← Int.sub_emod,
    add_sub_cancel_right, Int.emod_eq_of_lt h0 h1]

theorem emod_shift_fix (n : ℕ) (hn : 2 ≤ n) (a d : ℤ) (hd : d = 1 ∨ d = -1)
    (h : (a + d) % (n : ℤ) = a) : False := by
  have hn0 : ((n : ℤ)) ≠ 0 := by exact_mod_cast (by omega : n ≠ 0)
  have h0 : 0 ≤ a := by rw [← h]; exact Int.emod_nonneg _ hn0
  have h1 : a < (n : ℤ) := by
    rw [← h]; exact Int.emod_lt_of_pos _ (by exact_mod_cast (by omega : 0 < n))
  have h2 : (a + d) % (n : ℤ) = a % (n : ℤ) := by rw [h, Int.emod_eq_of_lt h0 h1]
  have h3 : ((n : ℤ)) ∣ (a + d - a) := by
    rw [Int.emod_eq_emod_iff_emod_sub_eq_zero] at h2
    exact Int.dvd_of_emod_eq_zero h2
  have h4 : ((n : ℤ)) ∣ d := by simpa using h3
  have h5 : ((n : ℤ)) ∣ 1 := by
    rcases hd with rfl | rfl
    · exact h4
    · exact (dvd_neg).mp h4
  have h6 := Int.le_of_dvd one_pos h5
  omega

theorem emod_shift_ne (n : ℕ) (hn : 3 ≤ n) (a d : ℤ) (h1 : 0 < d) (h2 : d < 3) :
    (a + d) % (n : ℤ) ≠ a % (n : ℤ) := by
  intro h
  have h3 : ((n : ℤ)) ∣ (a + d - a) := by
    rw [Int.emod_eq_emod_iff_emod_sub_eq_zero] at h
    exact Int.dvd_of_emod_eq_zero h
  have h4 : ((n : ℤ)) ∣ d := by simpa using h3
  have h5 := Int.le_of_dvd h1 h4
  omega

theorem contour_symm {W H : ℕ} {c d : Cell} (hc : c ∈ gridCells W H)
    (hd : d ∈ contour W H c) : c ∈ contour W H d := by
  rw [mem_contour] at hd ⊢
  obtain ⟨o, ho, heq⟩ := hd
  rw [mem_gridCells] at hc
  rw [PBC_eq_emod] at heq
  refine ⟨(-o.1, -o.2), neg_mem_mooreOffsets o ho, ?_⟩
  subst heq
  rw [PBC_eq_emod, Prod.ext_iff]
  constructor
  · show ((c.1 + o.1) % (W : ℤ) + -o.1) % (W : ℤ) = c.1
    rw [← sub_eq_add_neg]
    exact emod_shift_cancel W c.1 o.1 hc.1 hc.2.1
  · show ((c.2 + o.2) % (H : ℤ) + -o.2) % (H : ℤ) = c.2
    rw [← sub_eq_add_neg]
    exact emod_shift_cancel H c.2 o.2 hc.2.2.1 hc.2.2.2

theorem contour_alive_sum_eq_zero_of_outside {W H : ℕ} {A : Finset Cell}
    {c : Cell} (hg : c ∈ gridCells W H) (hcA : c ∉ A)
    (hcB : c ∉ boundary W H A) : contour_alive_sum W H c A = 0 := by
  rw [contour_alive_sum_eq_card_inter, Finset.card_eq_zero,
    Finset.eq_empty_iff_forall_not_mem]
  intro d hd
  rw [Finset.mem_inter] at hd
  apply hcB
  rw [mem_boundary]
  exact ⟨hcA, d, hd.2, contour_symm hg hd.1⟩

theorem evolution_eq_denseStep (W H : ℕ) (hW : 0 < W) (hH : 0 < H)
    (A : Finset Cell) (hA : A ⊆ gridCells W H) :
    evolution W H A (boundary W H A) = denseStep W H A := by
  ext c
  simp only [evolution, denseStep, Finset.mem_union, Finset.mem_filter]
  constructor
  · rintro (⟨hcA, h2, h3⟩ | ⟨hcB, h3⟩)
    · exact ⟨hA hcA, Or.inl ⟨hcA, by omega⟩⟩
    · have hb := mem_boundary.mp hcB
      exact ⟨boundary_subset_grid hW hH A hcB, Or.inr ⟨hb.1, h3⟩⟩
  · rintro ⟨hg, ⟨hcA, hcnt⟩ | ⟨hcA, hcnt⟩⟩
    · exact Or.inl ⟨hcA, by omega⟩
    · refine Or.inr ⟨?_, hcnt⟩
      rw [mem_boundary]
      refine ⟨hcA, ?_⟩
      have hpos : 0 < ((contour W H c) ∩ A).card := by
        rw [← contour_alive_sum_eq_card_inter, hcnt]
        omega
      obtain ⟨d, hd⟩ := Finset.card_pos.mp hpos
      rw [Finset.mem_inter] at hd
      exact ⟨d, hd.2, contour_symm hg hd.1⟩

/-! ### Residue facts for grids with both dimensions at least 7 -/

theorem seven_emod_ne (n : ℕ) (hn : 7 ≤ n) (k : ℤ) (hk1 : 3 ≤ k) (hk2 : k ≤ 6) :
    (7 : ℤ) % (n : ℤ) ≠ k := by
  rcases Nat.lt_or_ge 7 n with h | h
  · rw [Int.emod_eq_of_lt (by norm_num) (by exact_mod_cast h)]
    omega
  · have hn7 : n = 7 := le_antisymm h hn
    subst hn7
    omega

theorem eight_emod_ne (n : ℕ) (hn : 7 ≤ n) (k : ℤ) (hk1 : 3 ≤ k) (hk2 : k ≤ 6) :
    (8 : ℤ) % (n : ℤ) ≠ k := by
  rcases Nat.lt_or_ge 8 n with h | h
  · rw [Int.emod_eq_of_lt (by norm_num) (by exact_mod_cast h)]
    omega
  · interval_cases n <;> omega

theorem seven_emod_emod (n : ℕ) :
    ((7 : ℤ) % (n : ℤ)) % (n : ℤ) = (7 : ℤ) % (n : ℤ) :=
  Int.emod_emod_of_dvd _ dvd_rfl

theorem seven_emod_sub_one (n : ℕ) (hn : 7 ≤ n) :
    ((7 : ℤ) % (n : ℤ) - 1) % (n : ℤ) = 6 := by
  rw [Int.sub_emod, Int.emod_emod_of_dvd _ dvd_rfl, ← Int.sub_emod,
    show (7 : ℤ) - 1 = 6 by norm_num]
  exact Int.emod_eq_of_lt (by norm_num) (by omega)

theorem seven_emod_add_one (n : ℕ) :
    ((7 : ℤ) % (n : ℤ) + 1) % (n : ℤ) = (8 : ℤ) % (n : ℤ) := by
  conv_lhs => rw [Int.add_emod]
  conv_rhs => rw [show (8 : ℤ) = 7 + 1 by norm_num, Int.add_emod]
  rw [Int.emod_emod_of_dvd _ dvd_rfl]

theorem seven_emod_split (n : ℕ) (hn : 7 ≤ n) :
    (7 : ℤ) % (n : ℤ) = 7 ∨ ((7 : ℤ) % (n : ℤ) = 0 ∧ n = 7) := by
  rcases Nat.lt_or_ge 7 n with h | h
  · exact Or.inl (Int.emod_eq_of_lt (by norm_num) (by omega))
  · have h7 : n = 7 := le_antisymm h hn
    subst h7
    exact Or.inr ⟨by decide, rfl⟩

theorem seven_eight_emod_split (n : ℕ) (hn : 7 ≤ n) :
    ((7 : ℤ) % (n : ℤ) = 7 ∧ (8 : ℤ) % (n : ℤ) = 8) ∨
    ((7 : ℤ) % (n : ℤ) = 7 ∧ (8 : ℤ) % (n : ℤ) = 0 ∧ n = 8) ∨
    ((7 : ℤ) % (n : ℤ) = 0 ∧ (8 : ℤ) % (n : ℤ) = 1 ∧ n = 7) := by
  rcases Nat.lt_or_ge 8 n with h | h
  · exact Or.inl ⟨Int.emod_eq_of_lt (by norm_num) (by omega),
      Int.emod_eq_of_lt (by norm_num) (by omega)⟩
  · interval_cases n
    · exact Or.inr (Or.inr ⟨by decide, by decide, rfl⟩)
    · exact Or.inr (Or.inl ⟨by decide, by decide, rfl⟩)

/-! ### Concrete contour shapes near the blinker, on any grid ≥ 7 × 7 -/

theorem contour_inrange (W H : ℕ) (x y : ℤ) (hx0 : 1 ≤ x)
    (hxW : x + 1 < (W : ℤ)) (hy0 : 1 ≤ y) (hyH : y + 1 < (H : ℤ)) :
    contour W H (x, y) =
      {(x - 1, y + 1), (x, y + 1), (x + 1, y + 1), (x + 1, y), (x + 1, y - 1),
       (x, y - 1), (x - 1, y - 1), (x - 1, y)} := by
  have e1 : (x - 1) % (W : ℤ) = x - 1 := Int.emod_eq_of_lt (by omega) (by omega)
  have e2 : x % (W : ℤ) = x := Int.emod_eq_of_lt (by omega) (by omega)
  have e3 : (x + 1) % (W : ℤ) = x + 1 := Int.emod_eq_of_lt (by omega) (by omega)
  have f1 : (y - 1) % (H : ℤ) = y - 1 := Int.emod_eq_of_lt (by omega) (by omega)
  have f2 : y % (H : ℤ) = y := Int.emod_eq_of_lt (by omega) (by omega)
  have f3 : (y + 1) % (H : ℤ) = y + 1 := Int.emod_eq_of_lt (by omega) (by omega)
  simp only [contour, PBC_eq_emod, e1, e2, e3, f1, f2, f3]

theorem contour_x6 (W H : ℕ) (hW : 7 ≤ W) (y : ℤ) (hy0 : 1 ≤ y)
    (hyH : y + 1 < (H : ℤ)) :
    contour W H (6, y) =
      {(5, y + 1), (6, y + 1), ((7 : ℤ) % (W : ℤ), y + 1),
       ((7 : ℤ) % (W : ℤ), y), ((7 : ℤ) % (W : ℤ), y - 1), (6, y - 1),
       (5, y - 1), (5, y)} := by
  have e1 : ((6 : ℤ) - 1) % (W : ℤ) = 5 := by
    rw [show ((6 : ℤ) - 1) = 5 by norm_num]
    exact Int.emod_eq_of_lt (by norm_num) (by omega)
  have e2 : (6 : ℤ) % (W : ℤ) = 6 := Int.emod_eq_of_lt (by norm_num) (by omega)
  have e3 : ((6 : ℤ) + 1) % (W : ℤ) = (7 : ℤ) % (W : ℤ) := by norm_num
  have f1 : (y - 1) % (H : ℤ) = y - 1 := Int.emod_eq_of_lt (by omega) (by omega)
  have f2 : y % (H : ℤ) = y := Int.emod_eq_of_lt (by omega) (by omega)
  have f3 : (y + 1) % (H : ℤ) = y + 1 := Int.emod_eq_of_lt (by omega) (by omega)
  simp only [contour, PBC_eq_emod, e1, e2, e3, f1, f2, f3]

theorem contour_y6 (W H : ℕ) (hH : 7 ≤ H) (x : ℤ) (hx0 : 1 ≤ x)
    (hxW : x + 1 < (W : ℤ)) :
    contour W H (x, 6) =
      {(x - 1, (7 : ℤ) % (H : ℤ)), (x, (7 : ℤ) % (H : ℤ)),
       (x + 1, (7 : ℤ) % (H : ℤ)), (x + 1, 6), (x + 1, 5), (x, 5),
       (x - 1, 5), (x - 1, 6)} := by
  have e1 : (x - 1) % (W : ℤ) = x - 1 := Int.emod_eq_of_lt (by omega) (by omega)
  have e2 : x % (W : ℤ) = x := Int.emod_eq_of_lt (by omega) (by omega)
  have e3 : (x + 1) % (W : ℤ) = x + 1 := Int.emod_eq_of_lt (by omega) (by omega)
  have f1 : ((6 : ℤ) - 1) % (H : ℤ) = 5 := by
    rw [show ((6 : ℤ) - 1) = 5 by norm_num]
    exact Int.emod_eq_of_lt (by norm_num) (by omega)
  have f2 : (6 : ℤ) % (H : ℤ) = 6 := Int.emod_eq_of_lt (by norm_num) (by omega)
  have f3 : ((6 : ℤ) + 1) % (H : ℤ) = (7 : ℤ) % (H : ℤ) := by norm_num
  simp only [contour, PBC_eq_emod, e1, e2, e3, f1, f2, f3]

theorem contour_x6y6 (W H : ℕ) (hW : 7 ≤ W) (hH : 7 ≤ H) :
    contour W H (6, 6) =
      {(5, (7 : ℤ) % (H : ℤ)), (6, (7 : ℤ) % (H : ℤ)),
       ((7 : ℤ) % (W : ℤ), (7 : ℤ) % (H : ℤ)), ((7 : ℤ) % (W : ℤ), 6),
       ((7 : ℤ) % (W : ℤ), 5), (6, 5), (5, 5), (5, 6)} := by
  have e1 : ((6 : ℤ) - 1) % (W : ℤ) = 5 := by
    rw [show ((6 : ℤ) - 1) = 5 by norm_num]
    exact Int.emod_eq_of_lt (by norm_num) (by omega)
  have e2 : (6 : ℤ) % (W : ℤ) = 6 := Int.emod_eq_of_lt (by norm_num) (by omega)
  have e3 : ((6 : ℤ) + 1) % (W : ℤ) = (7 : ℤ) % (W : ℤ) := by norm_num
  have f1 : ((6 : ℤ) - 1) % (H : ℤ) = 5 := by
    rw [show ((6 : ℤ) - 1) = 5 by norm_num]
    exact Int.emod_eq_of_lt (by norm_num) (by omega)
  have f2 : (6 : ℤ) % (H : ℤ) = 6 := Int.emod_eq_of_lt (by norm_num) (by omega)
  have f3 : ((6 : ℤ) + 1) % (H : ℤ) = (7 : ℤ) % (H : ℤ) := by norm_num
  simp only [contour, PBC_eq_emod, e1, e2, e3, f1, f2, f3]

theorem contour_qx (W H : ℕ) (hW : 7 ≤ W) (y : ℤ) (hy0 : 1 ≤ y)
    (hyH : y + 1 < (H : ℤ)) :
    contour W H ((7 : ℤ) % (W : ℤ), y) =
      {(6, y + 1), ((7 : ℤ) % (W : ℤ), y + 1), ((8 : ℤ) % (W : ℤ), y + 1),
       ((8 : ℤ) % (W : ℤ), y), ((8 : ℤ) % (W : ℤ), y - 1),
       ((7 : ℤ) % (W : ℤ), y - 1), (6, y - 1), (6, y)} := by
  have e1 := seven_emod_sub_one W hW
  have e2 := seven_emod_emod W
  have e3 := seven_emod_add_one W
  have f1 : (y - 1) % (H : ℤ) = y - 1 := Int.emod_eq_of_lt (by omega) (by omega)
  have f2 : y % (H : ℤ) = y := Int.emod_eq_of_lt (by omega) (by omega)
  have f3 : (y + 1) % (H : ℤ) = y + 1 := Int.emod_eq_of_lt (by omega) (by omega)
  simp only [contour, PBC_eq_emod, e1, e2, e3, f1, f2, f3]

theorem contour_qx_y6 (W H : ℕ) (hW : 7 ≤ W) (hH : 7 ≤ H) :
    contour W H ((7 : ℤ) % (W : ℤ), 6) =
      {(6, (7 : ℤ) % (H : ℤ)), ((7 : ℤ) % (W : ℤ), (7 : ℤ) % (H : ℤ)),
       ((8 : ℤ) % (W : ℤ), (7 : ℤ) % (H : ℤ)), ((8 : ℤ) % (W : ℤ), 6),
       ((8 : ℤ) % (W : ℤ), 5), ((7 : ℤ) % (W : ℤ), 5), (6, 5), (6, 6)} := by
  have e1 := seven_emod_sub_one W hW
  have e2 := seven_emod_emod W
  have e3 := seven_emod_add_one W
  have f1 : ((6 : ℤ) - 1) % (H : ℤ) = 5 := by
    rw [show ((6 : ℤ) - 1) = 5 by norm_num]
    exact Int.emod_eq_of_lt (by norm_num) (by omega)
  have f2 : (6 : ℤ) % (H : ℤ) = 6 := Int.emod_eq_of_lt (by norm_num) (by omega)
  have f3 : ((6 : ℤ) + 1) % (H : ℤ) = (7 : ℤ) % (H : ℤ) := by norm_num
  simp only [contour, PBC_eq_emod, e1, e2, e3, f1, f2, f3]

theorem contour_qy (W H : ℕ) (hH : 7 ≤ H) (x : ℤ) (hx0 : 1 ≤ x)
    (hxW : x + 1 < (W : ℤ)) :
    contour W H (x, (7 : ℤ) % (H : ℤ)) =
      {(x - 1, (8 : ℤ) % (H : ℤ)), (x, (8 : ℤ) % (H : ℤ)),
       (x + 1, (8 : ℤ) % (H : ℤ)), (x + 1, (7 : ℤ) % (H : ℤ)), (x + 1, 6),
       (x, 6), (x - 1, 6), (x - 1, (7 : ℤ) % (H : ℤ))} := by
  have e1 : (x - 1) % (W : ℤ) = x - 1 := Int.emod_eq_of_lt (by omega) (by omega)
  have e2 : x % (W : ℤ) = x := Int.emod_eq_of_lt (by omega) (by omega)
  have e3 : (x + 1) % (W : ℤ) = x + 1 := Int.emod_eq_of_lt (by omega) (by omega)
  have f1 := seven_emod_sub_one H hH
  have f2 := seven_emod_emod H
  have f3 := seven_emod_add_one H
  simp only [contour, PBC_eq_emod, e1, e2, e3, f1, f2, f3]

theorem contour_x6_qy (W H : ℕ) (hW : 7 ≤ W) (hH : 7 ≤ H) :
    contour W H (6, (7 : ℤ) % (H : ℤ)) =
      {(5, (8 : ℤ) % (H : ℤ)), (6, (8 : ℤ) % (H : ℤ)),
       ((7 : ℤ) % (W : ℤ), (8 : ℤ) % (H : ℤ)),
       ((7 : ℤ) % (W : ℤ), (7 : ℤ) % (H : ℤ)), ((7 : ℤ) % (W : ℤ), 6),
       (6, 6), (5, 6), (5, (7 : ℤ) % (H : ℤ))} := by
  have e1 : ((6 : ℤ) - 1) % (W : ℤ) = 5 := by
    rw [show ((6 : ℤ) - 1) = 5 by norm_num]
    exact Int.emod_eq_of_lt (by norm_num) (by omega)
  have e2 : (6 : ℤ) % (W : ℤ) = 6 := Int.emod_eq_of_lt (by norm_num) (by omega)
  have e3 : ((6 : ℤ) + 1) % (W : ℤ) = (7 : ℤ) % (W : ℤ) := by norm_num
  have f1 := seven_emod_sub_one H hH
  have f2 := seven_emod_emod H
  have f3 := seven_emod_add_one H
  simp only [contour, PBC_eq_emod, e1, e2, e3, f1, f2, f3]

/-! ### Claims C2, C3, C6, C8, C9, C10 -/

/-- Claim C3: for every integer input pair and fixed positive grid
dimensions, `PBC` returns the componentwise mathematical modulo: the
result lies in `[0,W) × [0,H)`, each component is congruent to the input
component modulo the corresponding dimension, and input component `-1`
maps to `W-1` (resp. `H-1`). -/
theorem C3_PBC_true_modulo (W H : ℕ) (hW : 0 < W) (hH : 0 < H) (x y : ℤ) :
    PBC W H x y = (x % (W : ℤ), y % (H : ℤ)) ∧
    (0 ≤ (PBC W H x y).1 ∧ (PBC W H x y).1 < (W : ℤ) ∧
     0 ≤ (PBC W H x y).2 ∧ (PBC W H x y).2 < (H : ℤ)) ∧
    ((PBC W H x y).1 % (W : ℤ) = x % (W : ℤ) ∧
     (PBC W H x y).2 % (H : ℤ) = y % (H : ℤ)) ∧
    PBC W H (-1) (-1) = ((W : ℤ) - 1, (H : ℤ) - 1) := by
  have hg := PBC_mem_grid hW hH x y
  rw [mem_gridCells] at hg
  refine ⟨PBC_eq_emod W H x y, hg, ?_, ?_⟩
  · rw [PBC_eq_emod]
    exact ⟨Int.emod_emod_of_dvd _ dvd_rfl, Int.emod_emod_of_dvd _ dvd_rfl⟩
  · rw [PBC_eq_emod]
    have hWe : (-1 : ℤ) % (W : ℤ) = (W : ℤ) - 1 := by
      have d1 : (-1 - ((W : ℤ) - 1)) % (W : ℤ) = 0 :=
        Int.emod_eq_zero_of_dvd ⟨-1, by ring⟩
      have e1 : (-1 : ℤ) % (W : ℤ) = ((W : ℤ) - 1) % (W : ℤ) :=
        Int.emod_eq_emod_iff_emod_sub_eq_zero.mpr d1
      rw [e1, Int.emod_eq_of_lt (by omega) (by omega)]
    have hHe : (-1 : ℤ) % (H : ℤ) = (H : ℤ) - 1 := by
      have d1 : (-1 - ((H : ℤ) - 1)) % (H : ℤ) = 0 :=
        Int.emod_eq_zero_of_dvd ⟨-1, by ring⟩
      have e1 : (-1 : ℤ) % (H : ℤ) = ((H : ℤ) - 1) % (H : ℤ) :=
        Int.emod_eq_emod_iff_emod_sub_eq_zero.mpr d1
      rw [e1, Int.emod_eq_of_lt (by omega) (by omega)]
    rw [hWe, hHe]

theorem C3_witness :
    0 < 3 ∧ PBC 3 3 (-1) (-1) = (((3 : ℕ) : ℤ) - 1, ((3 : ℕ) : ℤ) - 1) :=
  ⟨by decide, (C3_PBC_true_modulo 3 3 (by decide) (by decide) (-1) (-1)).2.2.2⟩

/-- Claim C9: for every cell and alive set, `contour_alive_sum` equals the
cardinality of `contour(c) ∩ A` and always lies in the range `[0, 8]`. -/
theorem C9_contour_alive_sum_spec (W H : ℕ) (c : Cell) (A : Finset Cell) :
    contour_alive_sum W H c A = ((contour W H c) ∩ A).card ∧
    contour_alive_sum W H c A ≤ 8 :=
  ⟨contour_alive_sum_eq_card_inter W H c A, contour_alive_sum_le_eight W H c A⟩

/-- Claim C8: for every pair of input sets (even a boundary set not
corresponding to the alive set), `evolution(A, B)` is a subset of `A ∪ B`
— every output cell carries exactly the coordinate pair it had in `A` or
`B`, no renormalization is applied — and `evolution(∅, ∅) = ∅`. -/
theorem C8_evolution_subset (W H : ℕ) (A B : Finset Cell) :
    evolution W H A B ⊆ A ∪ B ∧ evolution W H (∅ : Finset Cell) ∅ = ∅ :=
  ⟨evolution_subset_union W H A B, by simp [evolution]⟩

/-- Claim C10: for every input set, even one containing coordinates
outside `[0,W) × [0,H)`, every cell of `boundary(A)` lies within the
grid: the boundary is always normalized by the toroidal mapping. -/
theorem C10_boundary_normalized (W H : ℕ) (hW : 0 < W) (hH : 0 < H)
    (A : Finset Cell) : boundary W H A ⊆ gridCells W H :=
  boundary_subset_grid hW hH A

theorem C10_witness :
    0 < 3 ∧ boundary 3 3 {((-5 : ℤ), (9 : ℤ))} ⊆ gridCells 3 3 :=
  ⟨by decide, C10_boundary_normalized 3 3 (by decide) (by decide) _⟩

/-- Claim C2: `boundary(A)` is exactly the set of cells that are not in
`A` and are a toroidal neighbor of at least one cell of `A`; consequently
`boundary(A) ∩ A = ∅`, `boundary(∅) = ∅`, and the boundary of the full
grid is empty. -/
theorem C2_boundary_characterization (W H : ℕ) (hW : 0 < W) (hH : 0 < H)
    (A : Finset Cell) :
    (∀ c : Cell, c ∈ boundary W H A ↔ c ∉ A ∧ ∃ a ∈ A, c ∈ contour W H a) ∧
    boundary W H A ∩ A = ∅ ∧
    boundary W H (∅ : Finset Cell) = ∅ ∧
    boundary W H (gridCells W H) = ∅ := by
  refine ⟨fun c => mem_boundary, ?_, by simp [boundary], ?_⟩
  · rw [Finset.eq_empty_iff_forall_not_mem]
    intro c hc
    rw [Finset.mem_inter, mem_boundary] at hc
    exact hc.1.1 hc.2
  · rw [boundary, Finset.sdiff_eq_empty_iff_subset]
    intro c hc
    rw [Finset.mem_biUnion] at hc
    obtain ⟨a, -, hca⟩ := hc
    exact contour_subset_grid hW hH a hca

theorem C2_witness :
    0 < 2 ∧ boundary 2 2 {((0 : ℤ), (0 : ℤ))} ∩ {((0 : ℤ), (0 : ℤ))} = ∅ :=
  ⟨by decide,
    (C2_boundary_characterization 2 2 (by decide) (by decide) _).2.1⟩

/-- Claim C6: the containment invariant is preserved by every simulation
tick: if `A ⊆ [0,W) × [0,H)` then the next alive set
`evolution(A, boundary(A))` is contained in the grid, and so is the
recomputed boundary of that next alive set. -/
theorem C6_invariant_preserved (W H : ℕ) (hW : 0 < W) (hH : 0 < H)
    (A : Finset Cell) (hA : A ⊆ gridCells W H) :
    evolution W H A (boundary W H A) ⊆ gridCells W H ∧
    boundary W H (evolution W H A (boundary W H A)) ⊆ gridCells W H := by
  constructor
  · intro c hc
    have hc2 := evolution_subset_union W H A (boundary W H A) hc
    rw [Finset.mem_union] at hc2
    rcases hc2 with h | h
    · exact hA h
    · exact boundary_subset_grid hW hH A h
  · exact boundary_subset_grid hW hH _

theorem C6_witness :
    0 < 2 ∧ ({((0 : ℤ), (0 : ℤ))} : Finset Cell) ⊆ gridCells 2 2 ∧
      evolution 2 2 {((0 : ℤ), (0 : ℤ))}
        (boundary 2 2 {((0 : ℤ), (0 : ℤ))}) ⊆ gridCells 2 2 :=
  ⟨by decide, by decide,
    (C6_invariant_preserved 2 2 (by decide) (by decide) _ (by decide)).1⟩

/-! ### Claim C1: the sparse step refines the dense reference step -/

/-- Claim C1: for every alive set whose cells all lie in the grid
(`W`, `H` positive), `evolution(A, boundary(A))` equals the dense
reference step that evaluates the Game-of-Life rule at every cell of the
full grid; in particular every dead cell outside `boundary(A)` has
alive-neighbor count 0, so the sparse computation equals the dense one. -/
theorem C1_sparse_refines_dense (W H : ℕ) (hW : 0 < W) (hH : 0 < H)
    (A : Finset Cell) (hA : A ⊆ gridCells W H) :
    evolution W H A (boundary W H A) = denseStep W H A ∧
    (∀ c ∈ gridCells W H, c ∉ A → c ∉ boundary W H A →
      contour_alive_sum W H c A = 0) :=
  ⟨evolution_eq_denseStep W H hW hH A hA,
    fun _ hg hcA hcB => contour_alive_sum_eq_zero_of_outside hg hcA hcB⟩

theorem C1_witness :
    0 < 3 ∧ ({((1 : ℤ), (1 : ℤ))} : Finset Cell) ⊆ gridCells 3 3 ∧
      evolution 3 3 {((1 : ℤ), (1 : ℤ))} (boundary 3 3 {((1 : ℤ), (1 : ℤ))}) =
        denseStep 3 3 {((1 : ℤ), (1 : ℤ))} :=
  ⟨by decide, by decide,
    (C1_sparse_refines_dense 3 3 (by decide) (by decide) _ (by decide)).1⟩

/-! ### Claims C4 and C5: shape of the contour -/

/-- Claim C4: for every cell, `contour(c)` is the set of toroidal
normalizations of the 8 Moore-neighborhood offsets of `c`, and when
`W ≥ 3` and `H ≥ 3` it contains exactly 8 distinct cells. -/
theorem C4_contour_eight (W H : ℕ) (c : Cell) :
    contour W H c =
      mooreOffsets.image (fun o => PBC W H (c.1 + o.1) (c.2 + o.2)) ∧
    (3 ≤ W → 3 ≤ H → (contour W H c).card = 8) := by
  refine ⟨contour_eq_image W H c, fun hW hH => ?_⟩
  have hn12 : (c.1 - 1) % (W : ℤ) ≠ c.1 % (W : ℤ) := by
    have h := emod_shift_ne W hW (c.1 - 1) 1 one_pos (by norm_num)
    have e : c.1 - 1 + 1 = c.1 := by ring
    rw [e] at h
    exact h.symm
  have hn13 : (c.1 - 1) % (W : ℤ) ≠ (c.1 + 1) % (W : ℤ) := by
    have h := emod_shift_ne W hW (c.1 - 1) 2 two_pos (by norm_num)
    have e : c.1 - 1 + 2 = c.1 + 1 := by ring
    rw [e] at h
    exact h.symm
  have hn23 : c.1 % (W : ℤ) ≠ (c.1 + 1) % (W : ℤ) :=
    (emod_shift_ne W hW c.1 1 one_pos (by norm_num)).symm
  have hm12 : (c.2 - 1) % (H : ℤ) ≠ c.2 % (H : ℤ) := by
    have h := emod_shift_ne H hH (c.2 - 1) 1 one_pos (by norm_num)
    have e : c.2 - 1 + 1 = c.2 := by ring
    rw [e] at h
    exact h.symm
  have hm13 : (c.2 - 1) % (H : ℤ) ≠ (c.2 + 1) % (H : ℤ) := by
    have h := emod_shift_ne H hH (c.2 - 1) 2 two_pos (by norm_num)
    have e : c.2 - 1 + 2 = c.2 + 1 := by ring
    rw [e] at h
    exact h.symm
  have hm23 : c.2 % (H : ℤ) ≠ (c.2 + 1) % (H : ℤ) :=
    (emod_shift_ne H hH c.2 1 one_pos (by norm_num)).symm
  have hc : contour W H c =
      insert ((c.1 - 1) % (W : ℤ), (c.2 + 1) % (H : ℤ))
        (insert (c.1 % (W : ℤ), (c.2 + 1) % (H : ℤ))
          (insert ((c.1 + 1) % (W : ℤ), (c.2 + 1) % (H : ℤ))
            (insert ((c.1 + 1) % (W : ℤ), c.2 % (H : ℤ))
              (insert ((c.1 + 1) % (W : ℤ), (c.2 - 1) % (H : ℤ))
                (insert (c.1 % (W : ℤ), (c.2 - 1) % (H : ℤ))
                  (insert ((c.1 - 1) % (W : ℤ), (c.2 - 1) % (H : ℤ))
                    {((c.1 - 1) % (W : ℤ), c.2 % (H : ℤ))})))))) := by
    simp only [contour, PBC_eq_emod]
  rw [hc]
  rw [Finset.card_insert_of_not_mem (by
    simp [Prod.mk.injEq, hn12, hn13, hn23, hm12, hm13, hm23,
      Ne.symm hn12, Ne.symm hn13, Ne.symm hn23,
      Ne.symm hm12, Ne.symm hm13, Ne.symm hm23])]
  rw [Finset.card_insert_of_not_mem (by
    simp [Prod.mk.injEq, hn12, hn13, hn23, hm12, hm13, hm23,
      Ne.symm hn12, Ne.symm hn13, Ne.symm hn23,
      Ne.symm hm12, Ne.symm hm13, Ne.symm hm23])]
  rw [Finset.card_insert_of_not_mem (by
    simp [Prod.mk.injEq, hn12, hn13, hn23, hm12, hm13, hm23,
      Ne.symm hn12, Ne.symm hn13, Ne.symm hn23,
      Ne.symm hm12, Ne.symm hm13, Ne.symm hm23])]
  rw [Finset.card_insert_of_not_mem (by
    simp [Prod.mk.injEq, hn12, hn13, hn23, hm12, hm13, hm23,
      Ne.symm hn12, Ne.symm hn13, Ne.symm hn23,
      Ne.symm hm12, Ne.symm hm13, Ne.symm hm23])]
  rw [Finset.card_insert_of_not_mem (by
    simp [Prod.mk.injEq, hn12, hn13, hn23, hm12, hm13, hm23,
      Ne.symm hn12, Ne.symm hn13, Ne.symm hn23,
      Ne.symm hm12, Ne.symm hm13, Ne.symm hm23])]
  rw [Finset.card_insert_of_not_mem (by
    simp [Prod.mk.injEq, hn12, hn13, hn23, hm12, hm13, hm23,
      Ne.symm hn12, Ne.symm hn13, Ne.symm hn23,
      Ne.symm hm12, Ne.symm hm13, Ne.symm hm23])]
  rw [Finset.card_insert_of_not_mem (by
    simp [Prod.mk.injEq, hn12, hn13, hn23, hm12, hm13, hm23,
      Ne.symm hn12, Ne.symm hn13, Ne.symm hn23,
      Ne.symm hm12, Ne.symm hm13, Ne.symm hm23])]
  rw [Finset.card_singleton]

theorem C4_witness : 3 ≤ 3 ∧ (contour 3 3 ((0 : ℤ), (0 : ℤ))).card = 8 :=
  ⟨by decide, (C4_contour_eight 3 3 ((0 : ℤ), (0 : ℤ))).2 (by decide) (by decide)⟩

/-- Claim C5 as stated is refuted: on the 1×1 grid (where `W, H ≥ 1`
holds), the contour of `(0,0)` contains the cell itself, because the
wraparound identifies every neighbor offset with the cell. -/
theorem C5_counterexample :
    ((0 : ℤ), (0 : ℤ)) ∈ contour 1 1 ((0 : ℤ), (0 : ℤ)) := by decide

/-- Claim C5 (amended): for every cell `c` and grid sizes `W, H ≥ 1`,
`contour(c)` has between 0 and 8 distinct entries, all within
`[0,W) × [0,H)`; the self-exclusion `c ∉ contour(c)` holds once
`W ≥ 2` and `H ≥ 2` (on a width- or height-1 grid wraparound can make a
cell its own neighbor). -/
theorem C5_contour_bounds (W H : ℕ) (hW : 1 ≤ W) (hH : 1 ≤ H) (c : Cell) :
    (contour W H c).card ≤ 8 ∧ contour W H c ⊆ gridCells W H ∧
    (2 ≤ W → 2 ≤ H → c ∉ contour W H c) := by
  refine ⟨card_contour_le W H c, contour_subset_grid hW hH c,
    fun hW2 hH2 hc => ?_⟩
  rw [mem_contour] at hc
  obtain ⟨o, ho, heq⟩ := hc
  rw [PBC_eq_emod, Prod.ext_iff] at heq
  simp only [mooreOffsets, Finset.mem_insert, Finset.mem_singleton] at ho
  rcases ho with rfl | rfl | rfl | rfl | rfl | rfl | rfl | rfl
  · exact emod_shift_fix W hW2 c.1 (-1) (Or.inr rfl) heq.1
  · exact emod_shift_fix H hH2 c.2 1 (Or.inl rfl) heq.2
  · exact emod_shift_fix W hW2 c.1 1 (Or.inl rfl) heq.1
  · exact emod_shift_fix W hW2 c.1 1 (Or.inl rfl) heq.1
  · exact emod_shift_fix W hW2 c.1 1 (Or.inl rfl) heq.1
  · exact emod_shift_fix H hH2 c.2 (-1) (Or.inr rfl) heq.2
  · exact emod_shift_fix W hW2 c.1 (-1) (Or.inr rfl) heq.1
  · exact emod_shift_fix W hW2 c.1 (-1) (Or.inr rfl) heq.1

theorem C5_witness :
    1 ≤ 2 ∧ ((0 : ℤ), (0 : ℤ)) ∉ contour 2 2 ((0 : ℤ), (0 : ℤ)) :=
  ⟨by decide,
    (C5_contour_bounds 2 2 (by decide) (by decide) _).2.2 (by decide) (by decide)⟩

/-! ### Claim C7: the blinker on any grid at least 7 × 7 -/

theorem boundary_blinkH (W H : ℕ) (hW : 7 ≤ W) (hH : 7 ≤ H) :
    boundary W H {((4 : ℤ), (5 : ℤ)), (5, 5), (6, 5)} =
      {((3 : ℤ), (6 : ℤ)), (4, 6), (5, 6), (5, 4), (4, 4), (3, 4), (3, 5),
       (6, 6), (6, 4), ((7 : ℤ) % (W : ℤ), 6), ((7 : ℤ) % (W : ℤ), 5),
       ((7 : ℤ) % (W : ℤ), 4)} := by
  have c45 : contour W H ((4 : ℤ), (5 : ℤ)) =
      {((3 : ℤ), (6 : ℤ)), (4, 6), (5, 6), (5, 5), (5, 4), (4, 4), (3, 4),
       (3, 5)} := by
    rw [contour_inrange W H 4 5 (by norm_num) (by omega) (by norm_num) (by omega)]
    decide
  have c55 : contour W H ((5 : ℤ), (5 : ℤ)) =
      {((4 : ℤ), (6 : ℤ)), (5, 6), (6, 6), (6, 5), (6, 4), (5, 4), (4, 4),
       (4, 5)} := by
    rw [contour_inrange W H 5 5 (by norm_num) (by omega) (by norm_num) (by omega)]
    decide
  have c65 : contour W H ((6 : ℤ), (5 : ℤ)) =
      {((5 : ℤ), (6 : ℤ)), (6, 6), ((7 : ℤ) % (W : ℤ), 6),
       ((7 : ℤ) % (W : ℤ), 5), ((7 : ℤ) % (W : ℤ), 4), (6, 4), (5, 4),
       (5, 5)} := by
    rw [contour_x6 W H hW 5 (by norm_num) (by omega)]
    norm_num
  simp only [boundary, Finset.biUnion_insert, Finset.singleton_biUnion]
  rw [c45, c55, c65]
  rcases Nat.lt_or_ge 7 W with h7 | h7
  · rw [show (7 : ℤ) % (W : ℤ) = 7 from
      Int.emod_eq_of_lt (by norm_num) (by omega)]
    decide
  · have h77 : W = 7 := le_antisymm h7 hW
    subst h77
    decide

theorem blinker_step1 (W H : ℕ) (hW : 7 ≤ W) (hH : 7 ≤ H) :
    evolution W H {((4 : ℤ), (5 : ℤ)), (5, 5), (6, 5)}
      (boundary W H {((4 : ℤ), (5 : ℤ)), (5, 5), (6, 5)}) =
    {((5 : ℤ), (4 : ℤ)), (5, 5), (5, 6)} := by
  have n45 : contour_alive_sum W H ((4 : ℤ), (5 : ℤ))
      {((4 : ℤ), (5 : ℤ)), (5, 5), (6, 5)} = 1 := by
    unfold contour_alive_sum
    rw [contour_inrange W H 4 5 (by norm_num) (by omega) (by norm_num) (by omega)]
    decide
  have n55 : contour_alive_sum W H ((5 : ℤ), (5 : ℤ))
      {((4 : ℤ), (5 : ℤ)), (5, 5), (6, 5)} = 2 := by
    unfold contour_alive_sum
    rw [contour_inrange W H 5 5 (by norm_num) (by omega) (by norm_num) (by omega)]
    decide
  have n65 : contour_alive_sum W H ((6 : ℤ), (5 : ℤ))
      {((4 : ℤ), (5 : ℤ)), (5, 5), (6, 5)} = 1 := by
    unfold contour_alive_sum
    rw [contour_x6 W H hW 5 (by norm_num) (by omega)]
    rcases seven_emod_split W hW with h7 | ⟨h7, rfl⟩ <;> rw [h7] <;> decide
  have n36 : contour_alive_sum W H ((3 : ℤ), (6 : ℤ))
      {((4 : ℤ), (5 : ℤ)), (5, 5), (6, 5)} = 1 := by
    unfold contour_alive_sum
    rw [contour_y6 W H hH 3 (by norm_num) (by omega)]
    rcases seven_emod_split H hH with k7 | ⟨k7, rfl⟩ <;> rw [k7] <;> decide
  have n46 : contour_alive_sum W H ((4 : ℤ), (6 : ℤ))
      {((4 : ℤ), (5 : ℤ)), (5, 5), (6, 5)} = 2 := by
    unfold contour_alive_sum
    rw [contour_y6 W H hH 4 (by norm_num) (by omega)]
    rcases seven_emod_split H hH with k7 | ⟨k7, rfl⟩ <;> rw [k7] <;> decide
  have n56 : contour_alive_sum W H ((5 : ℤ), (6 : ℤ))
      {((4 : ℤ), (5 : ℤ)), (5, 5), (6, 5)} = 3 := by
    unfold contour_alive_sum
    rw [contour_y6 W H hH 5 (by norm_num) (by omega)]
    rcases seven_emod_split H hH with k7 | ⟨k7, rfl⟩ <;> rw [k7] <;> decide
  have n54 : contour_alive_sum W H ((5 : ℤ), (4 : ℤ))
      {((4 : ℤ), (5 : ℤ)), (5, 5), (6, 5)} = 3 := by
    unfold contour_alive_sum
    rw [contour_inrange W H 5 4 (by norm_num) (by omega) (by norm_num) (by omega)]
    decide
  have n44 : contour_alive_sum W H ((4 : ℤ), (4 : ℤ))
      {((4 : ℤ), (5 : ℤ)), (5, 5), (6, 5)} = 2 := by
    unfold contour_alive_sum
    rw [contour_inrange W H 4 4 (by norm_num) (by omega) (by norm_num) (by omega)]
    decide
  have n34 : contour_alive_sum W H ((3 : ℤ), (4 : ℤ))
      {((4 : ℤ), (5 : ℤ)), (5, 5), (6, 5)} = 1 := by
    unfold contour_alive_sum
    rw [contour_inrange W H 3 4 (by norm_num) (by omega) (by norm_num) (by omega)]
    decide
  have n35 : contour_alive_sum W H ((3 : ℤ), (5 : ℤ))
      {((4 : ℤ), (5 : ℤ)), (5, 5), (6, 5)} = 1 := by
    unfold contour_alive_sum
    rw [contour_inrange W H 3 5 (by norm_num) (by omega) (by norm_num) (by omega)]
    decide
  have n66 : contour_alive_sum W H ((6 : ℤ), (6 : ℤ))
      {((4 : ℤ), (5 : ℤ)), (5, 5), (6, 5)} = 2 := by
    unfold contour_alive_sum
    rw [contour_x6y6 W H hW hH]
    rcases seven_emod_split W hW with h7 | ⟨h7, rfl⟩ <;>
      rcases seven_emod_split H hH with k7 | ⟨k7, rfl⟩ <;>
      simp only [h7, k7] <;> decide
  have n64 : contour_alive_sum W H ((6 : ℤ), (4 : ℤ))
      {((4 : ℤ), (5 : ℤ)), (5, 5), (6, 5)} = 2 := by
    unfold contour_alive_sum
    rw [contour_x6 W H hW 4 (by norm_num) (by omega)]
    rcases seven_emod_split W hW with h7 | ⟨h7, rfl⟩ <;> rw [h7] <;> decide
  have nq6 : contour_alive_sum W H ((7 : ℤ) % (W : ℤ), (6 : ℤ))
      {((4 : ℤ), (5 : ℤ)), (5, 5), (6, 5)} = 1 := by
    unfold contour_alive_sum
    rw [contour_qx_y6 W H hW hH]
    rcases seven_eight_emod_split W hW with ⟨h7, h8⟩ | ⟨h7, h8, rfl⟩ | ⟨h7, h8, rfl⟩ <;>
      rcases seven_emod_split H hH with k7 | ⟨k7, rfl⟩ <;>
      simp only [h7, h8, k7] <;> decide
  have nq5 : contour_alive_sum W H ((7 : ℤ) % (W : ℤ), (5 : ℤ))
      {((4 : ℤ), (5 : ℤ)), (5, 5), (6, 5)} = 1 := by
    unfold contour_alive_sum
    rw [contour_qx W H hW 5 (by norm_num) (by omega)]
    rcases seven_eight_emod_split W hW with ⟨h7, h8⟩ | ⟨h7, h8, rfl⟩ | ⟨h7, h8, rfl⟩ <;>
      rw [h7, h8] <;> decide
  have nq4 : contour_alive_sum W H ((7 : ℤ) % (W : ℤ), (4 : ℤ))
      {((4 : ℤ), (5 : ℤ)), (5, 5), (6, 5)} = 1 := by
    unfold contour_alive_sum
    rw [contour_qx W H hW 4 (by norm_num) (by omega)]
    rcases seven_eight_emod_split W hW with ⟨h7, h8⟩ | ⟨h7, h8, rfl⟩ | ⟨h7, h8, rfl⟩ <;>
      rw [h7, h8] <;> decide
  rw [boundary_blinkH W H hW hH]
  simp only [evolution, Finset.filter_insert, Finset.filter_singleton,
    n45, n55, n65, n36, n46, n56, n54, n44, n34, n35, n66, n64, nq6, nq5, nq4]
  norm_num
  decide

theorem boundary_blinkV (W H : ℕ) (hW : 7 ≤ W) (hH : 7 ≤ H) :
    boundary W H {((5 : ℤ), (4 : ℤ)), (5, 5), (5, 6)} =
      {((4 : ℤ), (5 : ℤ)), (6, 5), (6, 4), (6, 3), (5, 3), (4, 3), (4, 4),
       (4, 6), (6, 6), (4, (7 : ℤ) % (H : ℤ)), (5, (7 : ℤ) % (H : ℤ)),
       (6, (7 : ℤ) % (H : ℤ))} := by
  have c54 : contour W H ((5 : ℤ), (4 : ℤ)) =
      {((4 : ℤ), (5 : ℤ)), (5, 5), (6, 5), (6, 4), (6, 3), (5, 3), (4, 3),
       (4, 4)} := by
    rw [contour_inrange W H 5 4 (by norm_num) (by omega) (by norm_num) (by omega)]
    decide
  have c55 : contour W H ((5 : ℤ), (5 : ℤ)) =
      {((4 : ℤ), (6 : ℤ)), (5, 6), (6, 6), (6, 5), (6, 4), (5, 4), (4, 4),
       (4, 5)} := by
    rw [contour_inrange W H 5 5 (by norm_num) (by omega) (by norm_num) (by omega)]
    decide
  have c56 : contour W H ((5 : ℤ), (6 : ℤ)) =
      {((4 : ℤ), (7 : ℤ) % (H : ℤ)), (5, (7 : ℤ) % (H : ℤ)),
       (6, (7 : ℤ) % (H : ℤ)), (6, 6), (6, 5), (5, 5), (4, 5), (4, 6)} := by
    rw [contour_y6 W H hH 5 (by norm_num) (by omega)]
    norm_num
  simp only [boundary, Finset.biUnion_insert, Finset.singleton_biUnion]
  rw [c54, c55, c56]
  rcases Nat.lt_or_ge 7 H with h7 | h7
  · rw [show (7 : ℤ) % (H : ℤ) = 7 from
      Int.emod_eq_of_lt (by norm_num) (by omega)]
    decide
  · have h77 : H = 7 := le_antisymm h7 hH
    subst h77
    decide

theorem blinker_step2 (W H : ℕ) (hW : 7 ≤ W) (hH : 7 ≤ H) :
    evolution W H {((5 : ℤ), (4 : ℤ)), (5, 5), (5, 6)}
      (boundary W H {((5 : ℤ), (4 : ℤ)), (5, 5), (5, 6)}) =
    {((4 : ℤ), (5 : ℤ)), (5, 5), (6, 5)} := by
  have m54 : contour_alive_sum W H ((5 : ℤ), (4 : ℤ))
      {((5 : ℤ), (4 : ℤ)), (5, 5), (5, 6)} = 1 := by
    unfold contour_alive_sum
    rw [contour_inrange W H 5 4 (by norm_num) (by omega) (by norm_num) (by omega)]
    decide
  have m55 : contour_alive_sum W H ((5 : ℤ), (5 : ℤ))
      {((5 : ℤ), (4 : ℤ)), (5, 5), (5, 6)} = 2 := by
    unfold contour_alive_sum
    rw [contour_inrange W H 5 5 (by norm_num) (by omega) (by norm_num) (by omega)]
    decide
  have m56 : contour_alive_sum W H ((5 : ℤ), (6 : ℤ))
      {((5 : ℤ), (4 : ℤ)), (5, 5), (5, 6)} = 1 := by
    unfold contour_alive_sum
    rw [contour_y6 W H hH 5 (by norm_num) (by omega)]
    rcases seven_emod_split H hH with k7 | ⟨k7, rfl⟩ <;> rw [k7] <;> decide
  have m45 : contour_alive_sum W H ((4 : ℤ), (5 : ℤ))
      {((5 : ℤ), (4 : ℤ)), (5, 5), (5, 6)} = 3 := by
    unfold contour_alive_sum
    rw [contour_inrange W H 4 5 (by norm_num) (by omega) (by norm_num) (by omega)]
    decide
  have m65 : contour_alive_sum W H ((6 : ℤ), (5 : ℤ))
      {((5 : ℤ), (4 : ℤ)), (5, 5), (5, 6)} = 3 := by
    unfold contour_alive_sum
    rw [contour_x6 W H hW 5 (by norm_num) (by omega)]
    rcases seven_emod_split W hW with h7 | ⟨h7, rfl⟩ <;> rw [h7] <;> decide
  have m64 : contour_alive_sum W H ((6 : ℤ), (4 : ℤ))
      {((5 : ℤ), (4 : ℤ)), (5, 5), (5, 6)} = 2 := by
    unfold contour_alive_sum
    rw [contour_x6 W H hW 4 (by norm_num) (by omega)]
    rcases seven_emod_split W hW with h7 | ⟨h7, rfl⟩ <;> rw [h7] <;> decide
  have m63 : contour_alive_sum W H ((6 : ℤ), (3 : ℤ))
      {((5 : ℤ), (4 : ℤ)), (5, 5), (5, 6)} = 1 := by
    unfold contour_alive_sum
    rw [contour_x6 W H hW 3 (by norm_num) (by omega)]
    rcases seven_emod_split W hW with h7 | ⟨h7, rfl⟩ <;> rw [h7] <;> decide
  have m53 : contour_alive_sum W H ((5 : ℤ), (3 : ℤ))
      {((5 : ℤ), (4 : ℤ)), (5, 5), (5, 6)} = 1 := by
    unfold contour_alive_sum
    rw [contour_inrange W H 5 3 (by norm_num) (by omega) (by norm_num) (by omega)]
    decide
  have m43 : contour_alive_sum W H ((4 : ℤ), (3 : ℤ))
      {((5 : ℤ), (4 : ℤ)), (5, 5), (5, 6)} = 1 := by
    unfold contour_alive_sum
    rw [contour_inrange W H 4 3 (by norm_num) (by omega) (by norm_num) (by omega)]
    decide
  have m44 : contour_alive_sum W H ((4 : ℤ), (4 : ℤ))
      {((5 : ℤ), (4 : ℤ)), (5, 5), (5, 6)} = 2 := by
    unfold contour_alive_sum
    rw [contour_inrange W H 4 4 (by norm_num) (by omega) (by norm_num) (by omega)]
    decide
  have m46 : contour_alive_sum W H ((4 : ℤ), (6 : ℤ))
      {((5 : ℤ), (4 : ℤ)), (5, 5), (5, 6)} = 2 := by
    unfold contour_alive_sum
    rw [contour_y6 W H hH 4 (by norm_num) (by omega)]
    rcases seven_emod_split H hH with k7 | ⟨k7, rfl⟩ <;> rw [k7] <;> decide
  have m66 : contour_alive_sum W H ((6 : ℤ), (6 : ℤ))
      {((5 : ℤ), (4 : ℤ)), (5, 5), (5, 6)} = 2 := by
    unfold contour_alive_sum
    rw [contour_x6y6 W H hW hH]
    rcases seven_emod_split W hW with h7 | ⟨h7, rfl⟩ <;>
      rcases seven_emod_split H hH with k7 | ⟨k7, rfl⟩ <;>
      simp only [h7, k7] <;> decide
  have m4r : contour_alive_sum W H ((4 : ℤ), (7 : ℤ) % (H : ℤ))
      {((5 : ℤ), (4 : ℤ)), (5, 5), (5, 6)} = 1 := by
    unfold contour_alive_sum
    rw [contour_qy W H hH 4 (by norm_num) (by omega)]
    rcases seven_eight_emod_split H hH with ⟨k7, k8⟩ | ⟨k7, k8, rfl⟩ | ⟨k7, k8, rfl⟩ <;>
      rw [k7, k8] <;> decide
  have m5r : contour_alive_sum W H ((5 : ℤ), (7 : ℤ) % (H : ℤ))
      {((5 : ℤ), (4 : ℤ)), (5, 5), (5, 6)} = 1 := by
    unfold contour_alive_sum
    rw [contour_qy W H hH 5 (by norm_num) (by omega)]
    rcases seven_eight_emod_split H hH with ⟨k7, k8⟩ | ⟨k7, k8, rfl⟩ | ⟨k7, k8, rfl⟩ <;>
      rw [k7, k8] <;> decide
  have m6r : contour_alive_sum W H ((6 : ℤ), (7 : ℤ) % (H : ℤ))
      {((5 : ℤ), (4 : ℤ)), (5, 5), (5, 6)} = 1 := by
    unfold contour_alive_sum
    rw [contour_x6_qy W H hW hH]
    rcases seven_eight_emod_split H hH with ⟨k7, k8⟩ | ⟨k7, k8, rfl⟩ | ⟨k7, k8, rfl⟩ <;>
      rcases seven_emod_split W hW with h7 | ⟨h7, rfl⟩ <;>
      simp only [h7, k7, k8] <;> decide
  rw [boundary_blinkV W H hW hH]
  simp only [evolution, Finset.filter_insert, Finset.filter_singleton,
    m54, m55, m56, m45, m65, m64, m63, m53, m43, m44, m46, m66, m4r, m5r, m6r]
  norm_num
  decide

/-- Claim C7: on any grid with `W ≥ 7` and `H ≥ 7`, one evolution step
from the horizontal blinker `{(4,5),(5,5),(6,5)}` (with its computed
boundary) yields exactly the vertical triplet `{(5,4),(5,5),(5,6)}`, and
a second step with the recomputed boundary yields the horizontal triplet
again — a period-2 oscillator. -/
theorem C7_blinker_oscillates (W H : ℕ) (hW : 7 ≤ W) (hH : 7 ≤ H) :
    evolution W H {((4 : ℤ), (5 : ℤ)), (5, 5), (6, 5)}
        (boundary W H {((4 : ℤ), (5 : ℤ)), (5, 5), (6, 5)}) =
      {((5 : ℤ), (4 : ℤ)), (5, 5), (5, 6)} ∧
    evolution W H {((5 : ℤ), (4 : ℤ)), (5, 5), (5, 6)}
        (boundary W H {((5 : ℤ), (4 : ℤ)), (5, 5), (5, 6)}) =
      {((4 : ℤ), (5 : ℤ)), (5, 5), (6, 5)} :=
  ⟨blinker_step1 W H hW hH, blinker_step2 W H hW hH⟩

theorem C7_witness :
    7 ≤ 7 ∧
    evolution 7 7 {((4 : ℤ), (5 : ℤ)), (5, 5), (6, 5)}
        (boundary 7 7 {((4 : ℤ), (5 : ℤ)), (5, 5), (6, 5)}) =
      {((5 : ℤ), (4 : ℤ)), (5, 5), (5, 6)} ∧
    evolution 7 7 {((5 : ℤ), (4 : ℤ)), (5, 5), (5, 6)}
        (boundary 7 7 {((5 : ℤ), (4 : ℤ)), (5, 5), (5, 6)}) =
      {((4 : ℤ), (5 : ℤ)), (5, 5), (6, 5)} :=
  ⟨by decide, (C7_blinker_oscillates 7 7 (by decide) (by decide)).1,
    (C7_blinker_oscillates 7 7 (by decide) (by decide)).2⟩
